import Mathlib

/-!
# Verification of the OpenFoodFacts-MCP resource-resolution subsystem

A shallow embedding, in Lean 4, of the Resource Resolution & Access-Boundary
subsystem of the OpenFoodFacts-MCP server (TypeScript/Node.js), together with
theorems settling the specification claims about it.

Embedded source files:
* `src/roots/roots-service.js` — `RootsRegistry` (`isWithinRoots`, `getRootForURI`)
* `src/utils/file-utils.ts` — `getDirectoryContents`, `getFileContents`,
  `findTaxonomyFile`
* `src/utils/taxonomy-utils.ts` — `processTaxonomy`
* `src/resources/file-content.js` — `handleFileContent`
* `src/resources/taxonomy.ts` — `handleTaxonomy`, `listAvailableTaxonomies`
* `src/resources/resource-registry.js` — `routeResourceRequest`,
  `isResourceAccessible`

Modelling conventions:
* JavaScript strings are Lean `String`s; character-level work happens on
  `List Char` (`String.data`).
* The Node.js filesystem is an association list from absolute path strings to
  nodes (`FSNode`); a `dir` node carries its own `readdir` listing.  Syscalls
  performed by a function are logged in an `FSOp` trace so that claims of the
  form "no filesystem operation is attempted" are provable.
* Promise rejection / a thrown exception escaping a function is modelled with
  `Except String`; functions whose bodies are entirely wrapped in `try/catch`
  are total Lean functions returning the envelope directly.
* `new URL(uri)` is modelled by `parseURL`, a faithful subset of the WHATWG URL
  parser (the parser used by Node.js): after `scheme:`, a `//` introduces an
  authority that extends to the next `/`, `?` or `#`, and the serialized
  `pathname` begins after the authority.  The subset is exact for URI strings
  free of tabs, newlines, and characters that the WHATWG parser would
  percent-encode; all concrete URIs appearing below are in that fragment.
* `path.resolve(root, p)` (POSIX) is modelled by `pathResolve` for an absolute
  `root`: prepend `root` unless `p` is absolute, then normalize `.`, `..` and
  empty segments.
-/

namespace OffMcp

/-- JavaScript `\s` / `String.prototype.trim` whitespace, restricted to the
characters relevant here (space, tab, CR, LF); both JS notions agree on them. -/
def jsWS (c : Char) : Bool := c = ' ' || c = '\t' || c = '\r' || c = '\n'

/-- JavaScript `String.prototype.startsWith` — literal prefix test. -/
def jsStartsWith (s pre : String) : Bool := s.data.take pre.data.length == pre.data

/-- JavaScript `String.prototype.trim` on the character list. -/
def trimChars (l : List Char) : List Char :=
  ((l.dropWhile jsWS).reverse.dropWhile jsWS).reverse

/-- JavaScript `String.prototype.trim`. -/
def jsTrim (s : String) : String := String.mk (trimChars s.data)

/-- JavaScript `String.prototype.split` with a one-character separator.
Never returns `[]`; `[] ↦ [[]]` matches `"".split(c) === [""]`. -/
def splitOnChar (sep : Char) : List Char → List (List Char)
  | [] => [[]]
  | c :: cs =>
    if c = sep then [] :: splitOnChar sep cs
    else
      match splitOnChar sep cs with
      | [] => [[c]]
      | p :: ps => (c :: p) :: ps

/-- Join character-list pieces with a one-character separator
(JavaScript `Array.prototype.join`). -/
def joinChar (sep : Char) : List (List Char) → List Char
  | [] => []
  | [p] => p
  | p :: ps => p ++ sep :: joinChar sep ps

/-- `"s".repeat n` (JavaScript repeat after `ToIntegerOrInfinity` truncation). -/
def repeatStr (s : String) (n : Nat) : String := String.join (List.replicate n s)

/-- JavaScript `String.prototype.split` with a one-character string separator,
at the string level. -/
def jsSplitChar (sep : Char) (s : String) : List String :=
  (splitOnChar sep s.data).map String.mk

/-- Remove the leftmost occurrence of `pat` (nonempty) from the character
list, if any. -/
def removeFirstAux (pat : List Char) : List Char → List Char
  | [] => []
  | c :: cs =>
    if pat.isPrefixOf (c :: cs) then (c :: cs).drop pat.length
    else c :: removeFirstAux pat cs

/-- Remove the first occurrence of `pat` from `s`
(JavaScript `s.replace(pat, "")` with a string pattern). -/
def removeFirst (s pat : String) : String :=
  String.mk (removeFirstAux pat.data s.data)

/-- One step of POSIX path normalization: push a segment onto the resolved
stack, interpreting `.`, `..` and empty segments. -/
def normStep (stack : List (List Char)) (seg : List Char) : List (List Char) :=
  if seg = [] ∨ seg = ['.'] then stack
  else if seg = ['.', '.'] then stack.dropLast
  else stack ++ [seg]

/-- Node.js `path.posix.resolve(root, p)` for an absolute `root`: `p` is taken
as-is when absolute, otherwise appended to `root`; then `.`/`..`/empty segments
are normalized away and the result is `/`-joined with a leading slash. -/
def pathResolve (root p : String) : String :=
  let base : List Char :=
    match p.data with
    | '/' :: _ => p.data
    | _ => root.data ++ '/' :: p.data
  let segs := splitOnChar '/' base
  let stack := segs.foldl normStep []
  String.mk ('/' :: joinChar '/' stack)

/-- A filesystem node: a regular file (content, byte size, mtime as an ISO-8601
string) or a directory carrying its `readdir` listing as `(name, isDirectory)`
pairs in readdir order. -/
inductive FSNode : Type
  | file (content : String) (size : Nat) (mtime : String)
  | dir (listing : List (String × Bool))
deriving DecidableEq, Repr

/-- The filesystem model: absolute path string ↦ node. -/
def FSys : Type := List (String × FSNode)

/-- `fs.promises.stat` (and `existsSync`) as a lookup. -/
def statFS (fs : FSys) (p : String) : Option FSNode :=
  (List.lookup p fs)

/-- Is there a regular file at absolute path `p`? -/
def isFileAt (fs : FSys) (p : String) : Bool :=
  match statFS fs p with
  | some (.file _ _ _) => true
  | _ => false

/-- Content of the regular file at `p`, if any. -/
def fileContentAt (fs : FSys) (p : String) : Option String :=
  match statFS fs p with
  | some (.file c _ _) => some c
  | _ => none

/-- A logged filesystem syscall. -/
inductive FSOp : Type
  | statOp (p : String)
  | readdirOp (p : String)
  | readFileOp (p : String)
deriving DecidableEq, Repr

/-! ## Access Boundary: `src/roots/roots-service.js` -/

/-- A root URI granted by the client (`interface Root`). -/
structure Root : Type where
  uri : String
  name : Option String := none
deriving DecidableEq, Repr

/-- `RootsRegistry.isWithinRoots(uri)`: empty root list means allow-all,
otherwise the uri of some root must be a literal string prefix of `uri`. -/
def isWithinRoots (roots : List Root) (uri : String) : Bool :=
  if roots.length = 0 then true
  else roots.any (fun root => jsStartsWith uri root.uri)

/-- Insert into a list kept sorted by strictly decreasing `uri.length`,
placing the new element before ties — the unique stable descending sort step,
matching the ES2019+ stable `Array.prototype.sort` with comparator
`(a, b) => b.uri.length - a.uri.length`. -/
def insertByLenDesc (x : Root) : List Root → List Root
  | [] => [x]
  | y :: ys =>
    if y.uri.length > x.uri.length then y :: insertByLenDesc x ys
    else x :: y :: ys

/-- Stable sort by decreasing `uri.length` (insertion sort). -/
def sortByLenDesc : List Root → List Root
  | [] => []
  | x :: xs => insertByLenDesc x (sortByLenDesc xs)

/-- `RootsRegistry.getRootForURI(uri)`: on an empty root list `undefined`;
otherwise the head of the matching roots sorted by decreasing uri length
(`matchingRoots[0]`, `undefined` when no root matches). -/
def getRootForURI (roots : List Root) (uri : String) : Option Root :=
  if roots.length = 0 then none
  else (sortByLenDesc (roots.filter (fun root => jsStartsWith uri root.uri))).head?

/-! ## Filesystem Accessor: `src/utils/file-utils.ts` -/

/-- Node.js `path.posix.basename`: the last nonempty `/`-segment. -/
def posixBasename (p : String) : String :=
  match (splitOnChar '/' p.data).filter (fun seg => seg ≠ []) with
  | [] => ""
  | seg :: segs => String.mk ((seg :: segs).getLast (by simp))

/-- Node.js `path.posix.extname`: from the last `.` of the basename (empty when
there is no dot, or the only dot leads the basename). -/
def posixExtname (p : String) : String :=
  let bn := (posixBasename p).data
  let t := bn.reverse.takeWhile (fun c => c ≠ '.')
  if t.length ≥ bn.length - 1 then ""
  else String.mk ('.' :: t.reverse)

/-- The error message Node.js produces for `stat` on a missing path. -/
def enoentMsg (p : String) : String :=
  "ENOENT: no such file or directory, stat \x27" ++ p ++ "\x27"

/-- `getDirectoryContents(dirPath)` from `file-utils.ts`, with the project root
passed explicitly (the source reads it from `server-config`).  Returns the
joined listing or the thrown error message, plus the trace of syscalls. -/
def getDirectoryContents (fs : FSys) (projectRoot dirPath : String) :
    Except String String × List FSOp :=
  let fullPath := pathResolve projectRoot dirPath
  if jsStartsWith fullPath projectRoot = false then
    (.error "Access denied: Path outside project directory", [])
  else
    match statFS fs fullPath with
    | none => (.error (enoentMsg fullPath), [.statOp fullPath])
    | some (.file _ _ _) =>
      (.error ("Not a directory: " ++ dirPath), [.statOp fullPath])
    | some (.dir listing) =>
      (.ok (String.intercalate "\n" (listing.map (fun e =>
          e.1 ++ " (" ++ (if e.2 then "directory" else "file") ++ ")"))),
       [.statOp fullPath, .readdirOp fullPath])

/-- The `content`/`metadata` record returned by `getFileContents`. -/
structure FileResource : Type where
  content : String
  filename : String
  extension : String
  size : Nat
  lastModified : String
deriving DecidableEq, Repr

/-- `getFileContents(filepath)` from `file-utils.ts` (project root explicit). -/
def getFileContents (fs : FSys) (projectRoot filepath : String) :
    Except String FileResource × List FSOp :=
  let fullPath := pathResolve projectRoot filepath
  if jsStartsWith fullPath projectRoot = false then
    (.error "Access denied: Path outside project directory", [])
  else
    match statFS fs fullPath with
    | none => (.error (enoentMsg fullPath), [.statOp fullPath])
    | some (.dir _) =>
      (.error ("Not a file: " ++ filepath), [.statOp fullPath])
    | some (.file content size mtime) =>
      (.ok { content := content
             filename := posixBasename filepath
             extension := posixExtname filepath
             size := size
             lastModified := mtime },
       [.statOp fullPath, .readFileOp fullPath])

/-- The ordered candidate path templates of `findTaxonomyFile` (`taxonomyPaths`
in `file-utils.ts`). -/
def taxonomyPaths (taxonomyId : String) : List String :=
  [ "taxonomies/" ++ taxonomyId ++ "/taxonomy.txt",
    "taxonomies/" ++ taxonomyId ++ ".txt",
    "taxonomies/" ++ taxonomyId,
    "taxonomies/" ++ taxonomyId ++ ".txt.typed",
    "../taxonomies/" ++ taxonomyId ++ "/taxonomy.txt",
    "../taxonomies/" ++ taxonomyId ++ ".txt",
    "../taxonomies/" ++ taxonomyId,
    "../taxonomies/" ++ taxonomyId ++ ".txt.typed" ]

/-- Result of `findTaxonomyFile`: raw content plus the template-relative path. -/
structure TaxonomyFile : Type where
  content : String
  path : String
deriving DecidableEq, Repr

/-- The probe loop of `findTaxonomyFile`: for each candidate template, `stat`
its resolution against the project root; a regular file is read and returned
with the template-relative path; a missing path (`stat` throws, caught) or a
non-file is skipped. -/
def findTaxonomyAux (fs : FSys) (projectRoot : String) :
    List String → Option TaxonomyFile × List FSOp
  | [] => (none, [])
  | t :: ts =>
    let fullPath := pathResolve projectRoot t
    match statFS fs fullPath with
    | some (.file content _ _) =>
      (some { content := content, path := t }, [.statOp fullPath, .readFileOp fullPath])
    | some (.dir _) =>
      let r := findTaxonomyAux fs projectRoot ts
      (r.1, .statOp fullPath :: r.2)
    | none =>
      let r := findTaxonomyAux fs projectRoot ts
      (r.1, .statOp fullPath :: r.2)

/-- `findTaxonomyFile(taxonomyId)` from `file-utils.ts` (project root
explicit; `console.debug`/`console.warn` logging has no effect and is not
modelled). -/
def findTaxonomyFile (fs : FSys) (projectRoot taxonomyId : String) :
    Option TaxonomyFile × List FSOp :=
  findTaxonomyAux fs projectRoot (taxonomyPaths taxonomyId)

/-! ## `new URL(uri)`: WHATWG URL parser subset -/

/-- The parts of a parsed WHATWG `URL` used by the router and handlers. -/
structure URLRec : Type where
  protocol : String
  host : String
  pathname : String
deriving DecidableEq, Repr

/-- Characters allowed in a URL scheme after the first. -/
def isSchemeChar (c : Char) : Bool :=
  c.isAlpha || c.isDigit || c = '+' || c = '-' || c = '.'

/-- `new URL(uri)` (WHATWG, as implemented by Node.js), on the fragment of URI
strings described in the header: the scheme runs up to the first `:` and is
lowercased; `//` right after it introduces an authority extending to the next
`/`, `?` or `#`; the serialized `pathname` is what follows the authority, up
to `?` or `#`.  A missing or malformed scheme is a parse failure (`TypeError:
Invalid URL` at runtime), modelled as `none`. -/
def parseURL (uri : String) : Option URLRec :=
  let cs := uri.data
  let schemeChars := cs.takeWhile (fun c => !(c = ':'))
  if schemeChars.length = cs.length then none
  else
    match schemeChars with
    | [] => none
    | c0 :: _ =>
      if !(c0.isAlpha && schemeChars.all isSchemeChar) then none
      else
        let protocol := String.mk (schemeChars.map Char.toLower) ++ ":"
        match cs.drop (schemeChars.length + 1) with
        | '/' :: '/' :: afterSlashes =>
          let host := afterSlashes.takeWhile (fun c => !(c = '/' || c = '?' || c = '#'))
          let pathPlus := afterSlashes.drop host.length
          let pathname := pathPlus.takeWhile (fun c => !(c = '?' || c = '#'))
          some { protocol := protocol, host := String.mk host,
                 pathname := String.mk pathname }
        | afterColon =>
          let pathname := afterColon.takeWhile (fun c => !(c = '?' || c = '#'))
          some { protocol := protocol, host := "", pathname := String.mk pathname }

/-- Is `c` a hexadecimal digit? -/
def isHexDigitChar (c : Char) : Bool :=
  c.isDigit || ('a' ≤ c && c ≤ 'f') || ('A' ≤ c && c ≤ 'F')

/-- Numeric value of a hexadecimal digit character. -/
def hexVal (c : Char) : Nat :=
  if c.isDigit then c.toNat - 48
  else if 'a' ≤ c ∧ c ≤ 'f' then c.toNat - 87
  else c.toNat - 55

/-- The spec-side model of JavaScript `decodeURIComponent` on ASCII input:
each `%XY` hex escape becomes the character with code `16*X+Y`. -/
def percentDecode : List Char → List Char
  | '%' :: x :: y :: rest =>
    if isHexDigitChar x && isHexDigitChar y then
      Char.ofNat (16 * hexVal x + hexVal y) :: percentDecode rest
    else '%' :: percentDecode (x :: y :: rest)
  | c :: rest => c :: percentDecode rest
  | [] => []

/-! ## Response envelopes -/

/-- The optional-field bag standing for the ad-hoc `metadata` objects the
handlers attach to envelope entries. -/
structure Meta : Type where
  taxonomyId : Option String := none
  filepath : Option String := none
  isMock : Option Bool := none
  contentType : Option String := none
  filename : Option String := none
  extension : Option String := none
  size : Option Nat := none
  lastModified : Option String := none
  templateId : Option String := none
  templateName : Option String := none
deriving DecidableEq, Repr

/-- One entry of a `ResponseEnvelope.contents` array.  `none` models an absent
JavaScript property. -/
structure ContentItem : Type where
  uri : String
  text : String
  metadata : Option Meta := none
  isError : Option Bool := none
  mimeType : Option String := none
deriving DecidableEq, Repr

/-- The uniform response envelope `{ contents: [...] }`. -/
structure Envelope : Type where
  contents : List ContentItem
deriving DecidableEq, Repr

/-- The error envelope shape used throughout the handlers. -/
def errorEnvelope (uri text : String) : Envelope :=
  { contents := [{ uri := uri, text := text, isError := some true }] }

/-! ## File-content provider: `src/resources/file-content.js` -/

/-- `url.pathname.replace(/^\/\/file\//, "")`: strip one leading `//file/`. -/
def stripFileRoute (pathname : String) : String :=
  if jsStartsWith pathname "//file/" then String.mk (pathname.data.drop 7)
  else pathname

/-- `handleFileContent(uri, url)`: the filepath is the pathname with a leading
`//file/` stripped; empty filepath throws `Filepath parameter is required`
(caught by the outer catch of the handler); accessor errors are caught by the inner
catch.  Total (the whole body is wrapped in try/catch); the syscall trace of
the accessor call is returned alongside. -/
def handleFileContent (fs : FSys) (projectRoot uri : String) (url : URLRec) :
    Envelope × List FSOp :=
  let filepath := stripFileRoute url.pathname
  if filepath = "" then
    (errorEnvelope uri "Error processing request: Filepath parameter is required", [])
  else
    match getFileContents fs projectRoot filepath with
    | (.error msg, ops) =>
      (errorEnvelope uri ("Error accessing file: " ++ msg), ops)
    | (.ok fr, ops) =>
      let md : Meta :=
        { filename := some fr.filename, extension := some fr.extension,
          size := some fr.size, lastModified := some fr.lastModified }
      ({ contents := [{ uri := uri, text := fr.content, metadata := some md }] },
       ops)

/-! ## Taxonomy Formatter: `src/utils/taxonomy-utils.ts` -/

/-- `line.search(/\S/)` for a line containing a non-whitespace character:
the number of leading whitespace characters. -/
def leadingWSCount (l : List Char) : Nat := (l.takeWhile jsWS).length

/-- The data-line branch of the `processTaxonomy` loop: depth from leading
whitespace over an indent unit of 2 (JS `"  ".repeat(idx / 2)` truncates),
entry id before the first colon of the trimmed line, description rejoined
from everything past the first colon (and skipped when it trims to empty,
by JS string truthiness). -/
def formatDataLine (line : String) : String :=
  let depth := leadingWSCount line.data / 2
  let indentation := repeatStr "  " depth
  let parts := splitOnChar ':' (trimChars line.data)
  let entryId := jsTrim (String.mk (parts.headD []))
  let entryDescription :=
    if parts.length > 1 then jsTrim (String.mk (joinChar ':' parts.tail)) else ""
  indentation ++ "- " ++ entryId ++
    (if entryDescription ≠ "" then ": " ++ entryDescription else "")

/-- One iteration of the `processTaxonomy` loop: blank lines and lines starting
with `#` pass through verbatim, other lines are formatted. -/
def procLine (line : String) : String :=
  if jsTrim line = "" || jsStartsWith line "#" then line else formatDataLine line

/-- The navigation footer pushed after the processed lines. -/
def navigationLines (taxonomyId : String) : List String :=
  [ "\n## Navigation",
    "- Use openfoodfacts://taxonomy/\x7btaxonomy_id\x7d to view other taxonomies",
    "- View the raw taxonomy file at openfoodfacts://file/taxonomies/"
      ++ taxonomyId ++ ".txt" ]

/-- Result record of `processTaxonomy`. -/
structure ProcessedTaxonomy : Type where
  formattedContent : String
  taxonomyId : String
  filepath : String
deriving DecidableEq, Repr

/-- `processTaxonomy(taxonomyId)` from `taxonomy-utils.ts`: locate the file,
process each line, append the navigation footer, and prepend the two-line
header. -/
def processTaxonomy (fs : FSys) (projectRoot taxonomyId : String) :
    Option ProcessedTaxonomy × List FSOp :=
  match findTaxonomyFile fs projectRoot taxonomyId with
  | (none, ops) => (none, ops)
  | (some tf, ops) =>
    let lines := jsSplitChar '\n' tf.content
    let processed := lines.map procLine
    (some { formattedContent :=
              "# Taxonomy: " ++ taxonomyId ++ "\n\nFile: " ++ tf.path ++ "\n\n"
                ++ String.intercalate "\n" (processed ++ navigationLines taxonomyId)
            taxonomyId := taxonomyId
            filepath := tf.path },
     ops)

/-! ## Taxonomy resource handler: `src/resources/taxonomy.ts` -/

/-- The mock content stored under the key `categories` in the in-memory
`mockTaxonomies` table of `taxonomy.ts`, verbatim. -/
def mockCategoriesText : String :=
  "# Mock Categories Taxonomy (fallback content - real file not found)\n# Note: This is placeholder content provided because the categories.txt file was not found\n\nfood:en:Food\n  plant_based_food:en:Plant-based foods\n    fruits:en:Fruits\n      citrus:en:Citrus fruits\n        orange:en:Oranges\n        lemon:en:Lemons\n        lime:en:Limes\n      berries:en:Berries\n        strawberry:en:Strawberries\n        blueberry:en:Blueberries\n        raspberry:en:Raspberries\n      tropical_fruits:en:Tropical fruits\n        banana:en:Bananas\n        pineapple:en:Pineapples\n        mango:en:Mangoes\n    vegetables:en:Vegetables\n      root_vegetables:en:Root vegetables\n        carrot:en:Carrots\n        potato:en:Potatoes\n      leafy_vegetables:en:Leafy vegetables\n        spinach:en:Spinach\n        lettuce:en:Lettuce\n    grains:en:Grains\n      wheat:en:Wheat\n      rice:en:Rice\n      oats:en:Oats\n  animal_based_food:en:Animal-based foods\n    dairy:en:Dairy products\n      milk:en:Milk\n      cheese:en:Cheese\n      yogurt:en:Yogurt\n    meat:en:Meat\n      beef:en:Beef\n      pork:en:Pork\n      chicken:en:Chicken\n    seafood:en:Seafood\n      fish:en:Fish\n      shellfish:en:Shellfish\n  processed_food:en:Processed foods\n    sweets:en:Sweets\n      chocolate:en:Chocolate\n      candy:en:Candy\n    snacks:en:Snacks\n      chips:en:Chips\n      crackers:en:Crackers\n    beverages:en:Beverages\n      water:en:Water\n      juice:en:Fruit juices\n      soda:en:Soft drinks"

/-- The in-memory mock taxonomy table (`mockTaxonomies` in `taxonomy.ts`). -/
def mockTaxonomies : List (String × String) :=
  [("categories", mockCategoriesText)]

/-- `url.pathname.replace(/^\/\/taxonomy\//, "")`. -/
def stripTaxonomyRoute (pathname : String) : String :=
  if jsStartsWith pathname "//taxonomy/" then String.mk (pathname.data.drop 11)
  else pathname

/-- The `possiblePaths` the handler probes for debug logging (the probes do
not influence the result). -/
def possibleTaxonomyPaths (projectRoot cwd taxonomyId : String) : List String :=
  [ pathResolve projectRoot ("taxonomies/" ++ taxonomyId ++ ".txt"),
    pathResolve projectRoot ("../taxonomies/" ++ taxonomyId ++ ".txt"),
    pathResolve cwd ("../taxonomies/" ++ taxonomyId ++ ".txt"),
    pathResolve cwd ("../../taxonomies/" ++ taxonomyId ++ ".txt"),
    pathResolve cwd ("taxonomies/" ++ taxonomyId ++ ".txt") ]

/-- Append to a JavaScript `Set`-like accumulator: insertion order, no
duplicates. -/
def insertUnique (acc : List String) (x : String) : List String :=
  if x ∈ acc then acc else acc ++ [x]

/-- The per-directory body of `listAvailableTaxonomies`: names ending in
`.txt` and not starting with `.`, with the first `.txt` and then the first
`.typed` occurrence removed; a missing path or a `readdir` failure on a
non-directory is caught and skipped. -/
def availableFromDir (fs : FSys) (acc : List String) (dir : String) : List String :=
  match statFS fs dir with
  | some (.dir listing) =>
    (((listing.map Prod.fst).filter
        (fun f => f.endsWith ".txt" && !(jsStartsWith f "."))).map
      (fun f => removeFirst (removeFirst f ".txt") ".typed")).foldl insertUnique acc
  | _ => acc

/-- `listAvailableTaxonomies()` from `taxonomy.ts` (project root and working
directory explicit): scan five candidate directories in order, then append
the mock keys flagged `(mock available)`, falling back to a fixed message
when nothing was found. -/
def listAvailableTaxonomies (fs : FSys) (projectRoot cwd : String) : List String :=
  let possibleDirs :=
    [ pathResolve projectRoot "taxonomies",
      pathResolve projectRoot "../taxonomies",
      pathResolve cwd "../taxonomies",
      pathResolve cwd "../../taxonomies",
      pathResolve cwd "taxonomies" ]
  let found := possibleDirs.foldl (availableFromDir fs) []
  let found := (mockTaxonomies.map
      (fun kv => kv.1 ++ " (mock available)")).foldl insertUnique found
  if found.length = 0 then
    ["No taxonomies found. Please check the path to taxonomies folder."]
  else found

/-- The non-error mock-fallback envelope of `handleTaxonomy`: mock content
under a mock header, metadata flagged `isMock: true`. -/
def mockTaxonomyEnvelope (uri taxonomyId mock : String) : Envelope :=
  let md : Meta :=
    { taxonomyId := some taxonomyId, filepath := some ("mock://" ++ taxonomyId),
      isMock := some true }
  let text := "# Mock " ++ taxonomyId ++ " Taxonomy (fallback content)\n\n" ++ mock
  { contents := [{ uri := uri, text := text, metadata := some md }] }

/-- The diagnostic text of the final `handleTaxonomy` fallback: the available
taxonomies found on disk plus debug info. -/
def taxonomyNotFoundText (fs : FSys) (projectRoot cwd taxonomyId : String) : String :=
  "Taxonomy \x27" ++ taxonomyId
    ++ "\x27 not found despite checking multiple paths.\n\nAvailable taxonomies include: "
    ++ String.intercalate ", " (listAvailableTaxonomies fs projectRoot cwd)
    ++ "\n\nDebug info:\nProject root: " ++ projectRoot
    ++ "\nWorking directory: " ++ cwd
    ++ "\nPaths checked: "
    ++ String.intercalate ", " (possibleTaxonomyPaths projectRoot cwd taxonomyId)

/-- The string-keyed member names a plain JavaScript object literal inherits
from `Object.prototype`: a member read `obj[key]` that misses every own key
and hits one of these yields a truthy value (a native function, or the
prototype object itself for `__proto__`). -/
def objectProtoKeys : List String :=
  [ "constructor", "hasOwnProperty", "isPrototypeOf", "propertyIsEnumerable",
    "toLocaleString", "toString", "valueOf", "__defineGetter__",
    "__defineSetter__", "__lookupGetter__", "__lookupSetter__", "__proto__" ]

/-- The string a template literal interpolates for such an inherited member
under Node.js (V8): native functions print as
`function name() \x7b [native code] \x7d` (the `constructor` member is the
function named `Object`), and `__proto__` is `Object.prototype` itself. -/
def protoMemberString (key : String) : String :=
  if key = "constructor" then "function Object() \x7b [native code] \x7d"
  else if key = "__proto__" then "[object Object]"
  else "function " ++ key ++ "() \x7b [native code] \x7d"

/-- The JavaScript member read `mockTaxonomies[taxonomyId]`, coerced to the
string a template literal would interpolate; `none` stands for a falsy read.
Own keys of the object literal shadow the `Object.prototype` chain; a miss on
both is `undefined` (falsy). -/
def mockTaxonomiesAt (taxonomyId : String) : Option String :=
  match List.lookup taxonomyId mockTaxonomies with
  | some content => some content
  | none =>
    if taxonomyId ∈ objectProtoKeys then some (protoMemberString taxonomyId)
    else none

/-- A stage of the taxonomy soft-fail cascade, logged in order of attempt. -/
inductive TaxStage : Type
  | realFile
  | mockLookup
  | diagnostic
deriving DecidableEq, Repr

/-- `handleTaxonomy(uri, url)` from `taxonomy.ts`.  The empty-id throw is
caught by the catch of the handler itself (`Error accessing taxonomy: ...`);
otherwise the cascade runs: processed real file, else the truthiness test
`mockTaxonomies[taxonomyId]` — a JavaScript member read that also hits the
`Object.prototype` chain, modelled by `mockTaxonomiesAt` — flagged `isMock`,
else an error envelope listing available taxonomies plus debug info.  The
debug `existsSync` probes over `possibleTaxonomyPaths` only feed
`console.debug` and are not modelled.  The second component records which
cascade stages were consulted, in order. -/
def handleTaxonomy (fs : FSys) (projectRoot cwd uri : String) (url : URLRec) :
    Envelope × List TaxStage :=
  let taxonomyId := stripTaxonomyRoute url.pathname
  if taxonomyId = "" then
    (errorEnvelope uri "Error accessing taxonomy: Taxonomy ID is required", [])
  else
    match processTaxonomy fs projectRoot taxonomyId with
    | (some pt, _) =>
      let md : Meta :=
        { taxonomyId := some pt.taxonomyId, filepath := some pt.filepath }
      ({ contents := [{ uri := uri, text := pt.formattedContent,
                        metadata := some md }] },
       [.realFile])
    | (none, _) =>
      match mockTaxonomiesAt taxonomyId with
      | some mock =>
        (mockTaxonomyEnvelope uri taxonomyId mock, [.realFile, .mockLookup])
      | none =>
        (errorEnvelope uri (taxonomyNotFoundText fs projectRoot cwd taxonomyId),
         [.realFile, .mockLookup, .diagnostic])

/-! ## Static and template providers (external collaborators)

`static-resources.js` and `resource-templates.js` return fixed literal texts;
the spec treats them as external collaborators whose content is irrelevant, so
the texts are carried as parameters rather than repeated here.  Their control
flow (branching, the throw of `handleStaticResource`, the lookup and list
fallback of `handleResourceTemplate`) is embedded exactly. -/

/-- The five fixed texts served by `static-resources.js`. -/
structure StaticTexts : Type where
  schema : String
  apiDocs : String
  codePatterns : String
  fileOrganization : String
  categoriesTaxonomy : String

/-- `handleStaticResource(uri)`: five exact-URI branches; any other URI throws
`Static resource not found` (modelled as `.error`, caught by the router). -/
def handleStaticResource (st : StaticTexts) (uri : String) : Except String Envelope :=
  if uri = "openfoodfacts://schema" then
    .ok { contents := [{ uri := uri, text := st.schema }] }
  else if uri = "openfoodfacts://api-docs" then
    .ok { contents := [{ uri := uri, text := st.apiDocs }] }
  else if uri = "openfoodfacts://code-patterns" then
    .ok { contents := [{ uri := uri, text := st.codePatterns }] }
  else if uri = "openfoodfacts://file-organization" then
    .ok { contents := [{ uri := uri, text := st.fileOrganization }] }
  else if uri = "openfoodfacts://taxonomy/categories" then
    let md : Meta := { taxonomyId := some "categories", contentType := some "text/plain" }
    .ok { contents := [{ uri := uri, text := st.categoriesTaxonomy, metadata := some md }] }
  else .error ("Static resource not found: " ++ uri)

/-- One entry of the `templates` table in `resource-templates.js`. -/
structure TemplateEntry : Type where
  name : String
  description : String
  template : String

/-- `getAvailableTemplatesList()`: header plus one block per template. -/
def availableTemplatesList (templates : List (String × TemplateEntry)) : String :=
  templates.foldl
    (fun acc kv =>
      acc ++ "## " ++ kv.2.name ++ "\n" ++ "ID: " ++ kv.1 ++ "\n"
        ++ kv.2.description ++ "\n" ++ "URI: openfoodfacts://template/" ++ kv.1 ++ "\n\n")
    "# Available Resource Templates\n\n"

/-- `handleResourceTemplate(uri)`: template id after the fixed route; empty id
lists the templates, unknown id yields an error entry, otherwise the template
body is returned.  Total (try/catch around the body). -/
def handleResourceTemplate (templates : List (String × TemplateEntry))
    (uri : String) : Envelope :=
  let templateId := jsTrim (removeFirst uri "openfoodfacts://template/")
  if templateId = "" then
    let md : Meta := { contentType := some "text/plain" }
    { contents := [{ uri := uri, text := availableTemplatesList templates,
                     metadata := some md }] }
  else
    match List.lookup templateId templates with
    | none =>
      { contents := [{ uri := uri,
                       text := "Template \x27" ++ templateId
                         ++ "\x27 not found. Available templates: "
                         ++ String.intercalate ", " (templates.map Prod.fst),
                       isError := some true }] }
    | some t =>
      let md : Meta := { templateId := some templateId,
                         templateName := some t.name,
                         contentType := some "text/markdown" }
      { contents := [{ uri := uri, text := t.template, metadata := some md }] }

/-! ## Project info and structure providers: `project-info.js`

The spec classifies the project-info provider as an excluded external
collaborator; only its control flow (success envelope versus caught-error
envelope, never a throw) is embedded.  The JSON rendering of the success texts
is abbreviated by `projectInfoText` / `structureText`, on which no claim
depends. -/

/-- Abbreviated stand-in for the `JSON.stringify`-rendered project info. -/
def projectInfoText (dirs : List String) : String :=
  "Open Food Facts Server: " ++ String.intercalate ", " dirs

/-- `handleProjectInfo(uri)`: reads `package.json` (failures replaced by a
default inside `readJsonFile`) and the root directory listing; any failure is
caught into an error envelope. -/
def handleProjectInfo (fs : FSys) (projectRoot uri : String) : Envelope :=
  match statFS fs projectRoot with
  | some (.dir listing) =>
    let dirs := (listing.filter (fun e => e.2)).map Prod.fst
    let md : Meta := { contentType := some "application/json" }
    { contents := [{ uri := uri, text := projectInfoText dirs, metadata := some md }] }
  | _ =>
    errorEnvelope uri ("Error retrieving project info: " ++ enoentMsg projectRoot)

/-- Abbreviated stand-in for the `JSON.stringify`-rendered structure object. -/
def structureText (dirPath contents : String) : String :=
  "Structure of " ++ dirPath ++ ":\n" ++ contents

/-- `handleProjectStructure(uri)` (the variant in `project-info.js`, the one
the router imports): path after the fixed route (default `.`), listing via
`getDirectoryContents`, all failures caught into an error envelope. -/
def handleProjectStructure (fs : FSys) (projectRoot uri : String) : Envelope :=
  let structurePath := jsTrim (removeFirst uri "openfoodfacts://structure/")
  let dirPath := if structurePath = "" then "." else structurePath
  match getDirectoryContents fs projectRoot dirPath with
  | (.error msg, _) =>
    errorEnvelope uri ("Error retrieving project structure: " ++ msg)
  | (.ok contents, _) =>
    let md : Meta := { contentType := some "application/json" }
    { contents := [{ uri := uri, text := structureText dirPath contents,
                     metadata := some md }] }

/-! ## Resource Router: `src/resources/resource-registry.js` -/

/-- Everything the handlers read from their environment, bundled: the
filesystem, the configured project root and working directory, and the static
collaborator texts. -/
structure ServerCtx : Type where
  fs : FSys
  projectRoot : String
  cwd : String
  statics : StaticTexts
  templates : List (String × TemplateEntry)

/-- The static-resource whitelist of the router. -/
def staticResourceURIs : List String :=
  [ "openfoodfacts://schema", "openfoodfacts://api-docs",
    "openfoodfacts://code-patterns", "openfoodfacts://file-organization" ]

/-- `isResourceAccessible(uri)`: `openfoodfacts://` URIs are always
accessible; everything else is checked against the roots. -/
def isResourceAccessible (roots : List Root) (uri : String) : Bool :=
  jsStartsWith uri "openfoodfacts://" || isWithinRoots roots uri

/-- `root.name || root.uri` (JavaScript falsiness: absent or empty name falls
back to the uri). -/
def rootDisplayName (root : Root) : String :=
  match root.name with
  | some n => if n = "" then root.uri else n
  | none => root.uri

/-- The body of the try block of the router: ordered dispatch.  `.error` stands
for a thrown error reaching the catch of the router (`NotFound`, the `file:` URI outside
all roots, and the `handleStaticResource` throw). -/
def routeDispatch (roots : List Root) (ctx : ServerCtx) (uri : String)
    (url : URLRec) : Except String Envelope :=
  if url.protocol = "openfoodfacts:" && jsStartsWith url.pathname "//structure" then
    .ok (handleProjectStructure ctx.fs ctx.projectRoot uri)
  else if url.protocol = "openfoodfacts:" && jsStartsWith url.pathname "//file/" then
    .ok (handleFileContent ctx.fs ctx.projectRoot uri url).1
  else if uri = "openfoodfacts://info" then
    .ok (handleProjectInfo ctx.fs ctx.projectRoot uri)
  else if url.protocol = "openfoodfacts:" && jsStartsWith url.pathname "//taxonomy/" then
    if uri = "openfoodfacts://taxonomy/categories" then
      handleStaticResource ctx.statics uri
    else
      .ok (handleTaxonomy ctx.fs ctx.projectRoot ctx.cwd uri url).1
  else if url.protocol = "openfoodfacts:" && jsStartsWith url.pathname "//template" then
    .ok (handleResourceTemplate ctx.templates uri)
  else if uri ∈ staticResourceURIs then
    handleStaticResource ctx.statics uri
  else if url.protocol = "file:" then
    match getRootForURI roots uri with
    | some root =>
      .ok { contents := [{ uri := uri,
                           text := "File content accessed via root: "
                             ++ rootDisplayName root,
                           mimeType := some "text/plain" }] }
    | none => .error "File is not within any defined root"
  else .error ("Resource not found: " ++ uri)

/-- `routeResourceRequest(uri)` from `resource-registry.js` (the `dist`
variant the claims cite).  `new URL(uri)` sits before the `try` block, so a
URI rejected by the URL parser escapes as an exception (`.error`); inside the
`try`, every thrown error is converted to an `Error processing request`
envelope. -/
def routeResourceRequest (roots : List Root) (ctx : ServerCtx) (uri : String) :
    Except String Envelope :=
  match parseURL uri with
  | none => .error "Invalid URL"
  | some url =>
    if !(isResourceAccessible roots uri) then
      .ok (errorEnvelope uri
        "Access denied: The requested resource is not within any defined root")
    else
      match routeDispatch roots ctx uri url with
      | .ok env => .ok env
      | .error msg => .ok (errorEnvelope uri ("Error processing request: " ++ msg))

/-! ## Claim C2: traversal defense fires before any syscall -/

/-- C2: for every `relativePath` whose resolution against the project root
does not begin (as a string) with the project root, both `getDirectoryContents`
and `getFileContents` raise the AccessDenied condition — and the empty syscall
trace together with the quantification over every filesystem shows no
filesystem operation is attempted. -/
theorem fsAccessor_denies_outside_root (fs : FSys) (projectRoot relativePath : String)
    (h : jsStartsWith (pathResolve projectRoot relativePath) projectRoot = false) :
    getDirectoryContents fs projectRoot relativePath
      = (.error "Access denied: Path outside project directory", []) ∧
    getFileContents fs projectRoot relativePath
      = (.error "Access denied: Path outside project directory", []) := by
  constructor
  · simp only [getDirectoryContents, h, if_pos]
  · simp only [getFileContents, h, if_pos]

/-- Witness for C2 at a concrete escaping path. -/
theorem fsAccessor_denies_outside_root_witness :
    jsStartsWith (pathResolve "/project" "../../etc/passwd") "/project" = false ∧
    getDirectoryContents [] "/project" "../../etc/passwd"
      = (.error "Access denied: Path outside project directory", []) ∧
    getFileContents [] "/project" "../../etc/passwd"
      = (.error "Access denied: Path outside project directory", []) :=
  ⟨by decide,
   fsAccessor_denies_outside_root [] "/project" "../../etc/passwd" (by decide)⟩

/-! ## Claim C9: empty filepath short-circuits before the accessor -/

/-- C9: whenever the filepath obtained by stripping the `//file/` route from
the pathname of the URL is empty, `handleFileContent` returns the ParameterMissing
error envelope; the result is the same for every filesystem and the syscall
trace is empty, so the Filesystem Accessor is never invoked. -/
theorem handleFileContent_empty_filepath (fs : FSys) (projectRoot uri : String)
    (url : URLRec) (h : stripFileRoute url.pathname = "") :
    handleFileContent fs projectRoot uri url
      = (errorEnvelope uri "Error processing request: Filepath parameter is required",
         []) := by
  simp only [handleFileContent, h, if_pos]

/-- Witness for C9: `openfoodfacts://file` parses to an empty pathname, and the
handler answers with the ParameterMissing envelope without touching the
(empty) filesystem. -/
theorem handleFileContent_empty_filepath_witness :
    parseURL "openfoodfacts://file"
      = some { protocol := "openfoodfacts:", host := "file", pathname := "" } ∧
    handleFileContent [] "/project" "openfoodfacts://file"
        { protocol := "openfoodfacts:", host := "file", pathname := "" }
      = (errorEnvelope "openfoodfacts://file"
          "Error processing request: Filepath parameter is required", []) :=
  ⟨by decide,
   handleFileContent_empty_filepath [] "/project" "openfoodfacts://file"
     { protocol := "openfoodfacts:", host := "file", pathname := "" } (by decide)⟩

/-! ## Claim C5: `isWithinRoots` policy -/

/-- C5: `isWithinRoots` is true for every uri under an empty root list and
under the single empty-string root, and in general it is true exactly when the
list is empty or the uri of some root is a literal string prefix of the uri. -/
theorem isWithinRoots_policy (roots : List Root) (uri : String) :
    (isWithinRoots roots uri = true
      ↔ roots = [] ∨ ∃ r ∈ roots, jsStartsWith uri r.uri = true) ∧
    isWithinRoots [] uri = true ∧
    isWithinRoots [{ uri := "" }] uri = true := by
  refine ⟨?_, rfl, ?_⟩
  · cases roots with
    | nil => simp [isWithinRoots]
    | cons a l => simp [isWithinRoots, List.any_eq_true]
  · simp [isWithinRoots, jsStartsWith]

/-- Witness for C5 at concrete root lists. -/
theorem isWithinRoots_policy_witness :
    isWithinRoots [] "file:///x" = true ∧
    isWithinRoots [{ uri := "" }] "anything" = true :=
  ⟨(isWithinRoots_policy [] "file:///x").2.1,
   (isWithinRoots_policy [{ uri := "" }] "anything").2.2⟩

/-! ## Claim C4: `getRootForURI` picks the first longest match -/

/-- Maximum `uri.length` over a list of roots. -/
def maxUriLen (l : List Root) : Nat :=
  l.foldr (fun r m => max r.uri.length m) 0

/-- The spec-side reading of `mostSpecificRoot` on a pre-filtered match list:
"the one with the longest URI string, ties broken by first-match in iteration
order" — the first element whose length attains the maximum. -/
def firstLongest (l : List Root) : Option Root :=
  l.find? (fun r => r.uri.length = maxUriLen l)

theorem le_maxUriLen {l : List Root} {r : Root} (h : r ∈ l) :
    r.uri.length ≤ maxUriLen l := by
  induction l with
  | nil => cases h
  | cons a t ih =>
    rcases List.mem_cons.mp h with rfl | hm
    · exact Nat.le_max_left _ _
    · exact le_trans (ih hm) (Nat.le_max_right _ _)

theorem insertByLenDesc_ne_nil (x : Root) (l : List Root) :
    insertByLenDesc x l ≠ [] := by
  cases l with
  | nil => simp [insertByLenDesc]
  | cons y ys =>
    by_cases h : y.uri.length > x.uri.length <;> simp [insertByLenDesc, h]

theorem sortByLenDesc_eq_nil_iff (l : List Root) :
    sortByLenDesc l = [] ↔ l = [] := by
  cases l with
  | nil => simp [sortByLenDesc]
  | cons x xs =>
    simp only [sortByLenDesc]
    exact ⟨fun h => absurd h (insertByLenDesc_ne_nil _ _), fun h => by cases h⟩

theorem firstLongest_some_len {l : List Root} {r : Root}
    (h : firstLongest l = some r) : r.uri.length = maxUriLen l := by
  have := List.find?_some h
  exact of_decide_eq_true this

theorem head_sortByLenDesc (l : List Root) :
    (sortByLenDesc l).head? = firstLongest l := by
  induction l with
  | nil => rfl
  | cons x xs ih =>
    rcases hs : sortByLenDesc xs with _ | ⟨y, ys⟩
    · have hxs : xs = [] := (sortByLenDesc_eq_nil_iff xs).mp hs
      subst hxs
      simp [sortByLenDesc, insertByLenDesc, firstLongest, maxUriLen, List.find?]
    · have hy : firstLongest xs = some y := by
        rw [← ih, hs]; rfl
      have hylen : y.uri.length = maxUriLen xs := firstLongest_some_len hy
      by_cases hgt : y.uri.length > x.uri.length
      · have hxle : x.uri.length ≤ maxUriLen xs := by omega
        have hmax : maxUriLen (x :: xs) = maxUriLen xs := by
          simp only [maxUriLen, List.foldr_cons]
          exact Nat.max_eq_right hxle
        have hxne : x.uri.length ≠ maxUriLen (x :: xs) := by omega
        have hfl : firstLongest (x :: xs) = some y := by
          simp only [firstLongest]
          rw [List.find?_cons_of_neg _ (by simpa using hxne)]
          simp only [hmax]
          exact hy
        calc (sortByLenDesc (x :: xs)).head?
            = (insertByLenDesc x (sortByLenDesc xs)).head? := rfl
          _ = some y := by rw [hs]; simp [insertByLenDesc, hgt]
          _ = firstLongest (x :: xs) := hfl.symm
      · have hle : maxUriLen xs ≤ x.uri.length := by omega
        have hmax : maxUriLen (x :: xs) = x.uri.length := by
          simp only [maxUriLen, List.foldr_cons]
          exact Nat.max_eq_left hle
        have hfl : firstLongest (x :: xs) = some x := by
          simp only [firstLongest]
          rw [List.find?_cons_of_pos _ (by simp [hmax])]
        calc (sortByLenDesc (x :: xs)).head?
            = (insertByLenDesc x (sortByLenDesc xs)).head? := rfl
          _ = some x := by rw [hs]; simp [insertByLenDesc, hgt]
          _ = firstLongest (x :: xs) := hfl.symm

theorem find?_decomp {α : Type} {f : α → Bool} {l : List α} {a : α}
    (h : l.find? f = some a) :
    ∃ l1 l2, l = l1 ++ a :: l2 ∧ ∀ x ∈ l1, f x = false := by
  induction l with
  | nil => cases h
  | cons b t ih =>
    by_cases hb : f b
    · refine ⟨[], t, ?_, by simp⟩
      have : some b = some a := by rw [← h]; simp [List.find?, hb]
      cases this; rfl
    · have ht : t.find? f = some a := by
        rw [← h]; simp [List.find?, hb]
      obtain ⟨l1, l2, rfl, hall⟩ := ih ht
      exact ⟨b :: l1, l2, rfl, by
        intro x hx
        rcases List.mem_cons.mp hx with rfl | hm
        · exact (Bool.not_eq_true _).mp hb
        · exact hall x hm⟩

/-- C4: `getRootForURI` equals the spec-side "first longest prefix match"
selection; it is `none` on an empty root list or when no root matches, and a
returned root is a match of maximal uri length, preceded in the match list
only by strictly shorter matches (first-match tie-breaking). -/
theorem getRootForURI_most_specific (roots : List Root) (uri : String) :
    getRootForURI roots uri
      = firstLongest (roots.filter (fun r => jsStartsWith uri r.uri)) ∧
    (roots = [] → getRootForURI roots uri = none) ∧
    ((∀ r ∈ roots, jsStartsWith uri r.uri = false) → getRootForURI roots uri = none) ∧
    (∀ r, getRootForURI roots uri = some r →
      r ∈ roots ∧ jsStartsWith uri r.uri = true ∧
      (∀ s ∈ roots, jsStartsWith uri s.uri = true → s.uri.length ≤ r.uri.length) ∧
      ∃ l1 l2, roots.filter (fun r0 => jsStartsWith uri r0.uri) = l1 ++ r :: l2 ∧
        ∀ s ∈ l1, s.uri.length < r.uri.length) := by
  have hkey : getRootForURI roots uri
      = firstLongest (roots.filter (fun r => jsStartsWith uri r.uri)) := by
    cases roots with
    | nil => rfl
    | cons a t =>
      simp only [getRootForURI, List.length_cons]
      rw [if_neg (by omega)]
      exact head_sortByLenDesc _
  refine ⟨hkey, fun h => by subst h; rfl, ?_, ?_⟩
  · intro hnone
    rw [hkey]
    have : roots.filter (fun r => jsStartsWith uri r.uri) = [] := by
      rw [List.filter_eq_nil_iff]
      intro r hr
      simp [hnone r hr]
    rw [this]; rfl
  · intro r hr
    rw [hkey] at hr
    have hmem : r ∈ roots.filter (fun r0 => jsStartsWith uri r0.uri) :=
      List.mem_of_find?_eq_some hr
    have hmemr : r ∈ roots := (List.mem_filter.mp hmem).1
    have hpre : jsStartsWith uri r.uri = true := (List.mem_filter.mp hmem).2
    have hlen : r.uri.length = maxUriLen (roots.filter (fun r0 => jsStartsWith uri r0.uri)) :=
      firstLongest_some_len hr
    refine ⟨hmemr, hpre, ?_, ?_⟩
    · intro s hs hspre
      have : s ∈ roots.filter (fun r0 => jsStartsWith uri r0.uri) :=
        List.mem_filter.mpr ⟨hs, hspre⟩
      exact hlen ▸ le_maxUriLen this
    · obtain ⟨l1, l2, hsplit, hall⟩ := find?_decomp hr
      refine ⟨l1, l2, hsplit, ?_⟩
      intro s hsl1
      have hsmem : s ∈ roots.filter (fun r0 => jsStartsWith uri r0.uri) := by
        rw [hsplit]; exact List.mem_append_left _ hsl1
      have hne : ¬ (s.uri.length = maxUriLen (roots.filter (fun r0 => jsStartsWith uri r0.uri))) := by
        have := hall s hsl1
        simpa using this
      have hle := le_maxUriLen hsmem
      omega

/-- Witness for C4: two matching roots of equal maximal length — the first in
iteration order wins; an empty list gives `none`. -/
theorem getRootForURI_most_specific_witness :
    getRootForURI
        [ { uri := "file:///a" }, { uri := "file:///ab", name := some "one" },
          { uri := "file:///xy" }, { uri := "file:///ab", name := some "two" } ]
        "file:///abc"
      = some { uri := "file:///ab", name := some "one" } ∧
    getRootForURI [] "file:///abc" = none := by
  have h := getRootForURI_most_specific
    [ { uri := "file:///a" }, { uri := "file:///ab", name := some "one" },
      { uri := "file:///xy" }, { uri := "file:///ab", name := some "two" } ]
    "file:///abc"
  have h2 := getRootForURI_most_specific [] "file:///abc"
  exact ⟨by rw [h.1]; decide, h2.2.1 rfl⟩

/-! ## Claim C6: the taxonomy locator probes 8 templates in order -/

theorem findTaxonomyAux_none_iff (fs : FSys) (root : String) (ts : List String) :
    (findTaxonomyAux fs root ts).1 = none
      ↔ ∀ t ∈ ts, isFileAt fs (pathResolve root t) = false := by
  induction ts with
  | nil => simp [findTaxonomyAux]
  | cons t rest ih =>
    simp only [findTaxonomyAux]
    rcases hstat : statFS fs (pathResolve root t) with _ | node
    · simp [isFileAt, hstat, ih]
    · cases node with
      | file c sz mt =>
        simp [isFileAt, hstat]
      | dir listing =>
        simp [isFileAt, hstat, ih]

theorem findTaxonomyAux_some (fs : FSys) (root : String) (ts : List String)
    (r : TaxonomyFile) (h : (findTaxonomyAux fs root ts).1 = some r) :
    ∃ l1 l2, ts = l1 ++ r.path :: l2 ∧
      (∀ t ∈ l1, isFileAt fs (pathResolve root t) = false) ∧
      fileContentAt fs (pathResolve root r.path) = some r.content := by
  induction ts with
  | nil => simp [findTaxonomyAux] at h
  | cons t rest ih =>
    simp only [findTaxonomyAux] at h
    rcases hstat : statFS fs (pathResolve root t) with _ | node
    · rw [hstat] at h
      obtain ⟨l1, l2, rfl, hall, hc⟩ := ih h
      refine ⟨t :: l1, l2, rfl, ?_, hc⟩
      intro x hx
      rcases List.mem_cons.mp hx with rfl | hm
      · simp [isFileAt, hstat]
      · exact hall x hm
    · cases node with
      | file c sz mt =>
        rw [hstat] at h
        have h2 : ({ content := c, path := t } : TaxonomyFile) = r := Option.some.inj h
        subst h2
        refine ⟨[], rest, rfl, by simp, ?_⟩
        simp [fileContentAt, hstat]
      | dir listing =>
        rw [hstat] at h
        obtain ⟨l1, l2, rfl, hall, hc⟩ := ih h
        refine ⟨t :: l1, l2, rfl, ?_, hc⟩
        intro x hx
        rcases List.mem_cons.mp hx with rfl | hm
        · simp [isFileAt, hstat]
        · exact hall x hm

/-- C6: the candidate list of the locator is exactly the 8 templates in the claimed
order; the result is `none` precisely when no candidate resolves to a regular
file; and a hit returns the content of the first candidate that is a regular
file, tagged with the template-relative path. -/
theorem findTaxonomyFile_probe_order (fs : FSys) (projectRoot taxonomyId : String) :
    taxonomyPaths taxonomyId
      = [ "taxonomies/" ++ taxonomyId ++ "/taxonomy.txt",
          "taxonomies/" ++ taxonomyId ++ ".txt",
          "taxonomies/" ++ taxonomyId,
          "taxonomies/" ++ taxonomyId ++ ".txt.typed",
          "../taxonomies/" ++ taxonomyId ++ "/taxonomy.txt",
          "../taxonomies/" ++ taxonomyId ++ ".txt",
          "../taxonomies/" ++ taxonomyId,
          "../taxonomies/" ++ taxonomyId ++ ".txt.typed" ] ∧
    ((findTaxonomyFile fs projectRoot taxonomyId).1 = none
      ↔ ∀ t ∈ taxonomyPaths taxonomyId, isFileAt fs (pathResolve projectRoot t) = false) ∧
    (∀ r, (findTaxonomyFile fs projectRoot taxonomyId).1 = some r →
      r.path ∈ taxonomyPaths taxonomyId ∧
      fileContentAt fs (pathResolve projectRoot r.path) = some r.content ∧
      ∃ l1 l2, taxonomyPaths taxonomyId = l1 ++ r.path :: l2 ∧
        ∀ t ∈ l1, isFileAt fs (pathResolve projectRoot t) = false) := by
  refine ⟨rfl, findTaxonomyAux_none_iff fs projectRoot _, ?_⟩
  intro r hr
  obtain ⟨l1, l2, hsplit, hall, hc⟩ := findTaxonomyAux_some fs projectRoot _ r hr
  exact ⟨by rw [hsplit]; exact List.mem_append_right _ (List.mem_cons_self _ _),
         hc, l1, l2, hsplit, hall⟩

/-- Witness for C6: a filesystem where the first template is a directory and
the second is the file that wins; and the none case on the empty filesystem. -/
theorem findTaxonomyFile_probe_order_witness :
    (findTaxonomyFile
        [ ("/project/taxonomies/foo/taxonomy.txt", FSNode.dir []),
          ("/project/taxonomies/foo.txt", FSNode.file "x:y" 3 "2023-01-01T00:00:00.000Z") ]
        "/project" "foo").1
      = some { content := "x:y", path := "taxonomies/foo.txt" } ∧
    "taxonomies/foo.txt" ∈ taxonomyPaths "foo" ∧
    ((findTaxonomyFile [] "/project" "foo").1 = none
      ↔ ∀ t ∈ taxonomyPaths "foo", isFileAt [] (pathResolve "/project" t) = false) := by
  refine ⟨by decide, ?_, (findTaxonomyFile_probe_order [] "/project" "foo").2.1⟩
  have h := (findTaxonomyFile_probe_order
      [ ("/project/taxonomies/foo/taxonomy.txt", FSNode.dir []),
        ("/project/taxonomies/foo.txt", FSNode.file "x:y" 3 "2023-01-01T00:00:00.000Z") ]
      "/project" "foo").2.2
      { content := "x:y", path := "taxonomies/foo.txt" } (by decide)
  exact h.1

/-! ## Claim C7: data-line formatting -/

theorem splitOnChar_cons_self (sep : Char) (cs : List Char) :
    splitOnChar sep (sep :: cs) = [] :: splitOnChar sep cs := by
  simp [splitOnChar]

theorem splitOnChar_ne_nil (sep : Char) (l : List Char) : splitOnChar sep l ≠ [] := by
  cases l with
  | nil => simp [splitOnChar]
  | cons c cs =>
    by_cases h : c = sep
    · subst h; rw [splitOnChar_cons_self]; simp
    · simp only [splitOnChar, if_neg h]
      rcases hs : splitOnChar sep cs with _ | ⟨p, ps⟩ <;> simp

theorem splitOnChar_cons_hit (sep c : Char) (cs : List Char) (h : ¬ c = sep)
    (p : List Char) (ps : List (List Char)) (hs : splitOnChar sep cs = p :: ps) :
    splitOnChar sep (c :: cs) = (c :: p) :: ps := by
  simp only [splitOnChar, if_neg h, hs]

theorem splitOnChar_headD (sep : Char) (l : List Char) :
    (splitOnChar sep l).headD [] = l.takeWhile (fun c => !(c = sep)) := by
  induction l with
  | nil => rfl
  | cons c cs ih =>
    by_cases h : c = sep
    · subst h
      rw [splitOnChar_cons_self]
      simp [List.takeWhile_cons]
    · rcases hs : splitOnChar sep cs with _ | ⟨p, ps⟩
      · exact absurd hs (splitOnChar_ne_nil sep cs)
      · rw [splitOnChar_cons_hit sep c cs h p ps hs]
        rw [hs] at ih
        simp only [List.headD_cons] at ih
        simp [List.takeWhile_cons, h, ← ih]

theorem one_lt_splitOnChar_length (sep : Char) (l : List Char) :
    1 < (splitOnChar sep l).length ↔ sep ∈ l := by
  induction l with
  | nil => simp [splitOnChar]
  | cons c cs ih =>
    by_cases h : c = sep
    · subst h
      rw [splitOnChar_cons_self]
      have hlen : 0 < (splitOnChar c cs).length :=
        List.length_pos.mpr (splitOnChar_ne_nil c cs)
      simp only [List.length_cons]
      constructor
      · intro _; exact List.mem_cons_self _ _
      · intro _; omega
    · rcases hs : splitOnChar sep cs with _ | ⟨p, ps⟩
      · exact absurd hs (splitOnChar_ne_nil sep cs)
      · rw [splitOnChar_cons_hit sep c cs h p ps hs]
        rw [hs] at ih
        simp only [List.length_cons, List.mem_cons] at ih ⊢
        constructor
        · intro hl; exact Or.inr (ih.mp hl)
        · intro hm
          rcases hm with rfl | hm
          · exact absurd rfl h
          · exact ih.mpr hm

theorem joinChar_splitOnChar (sep : Char) (l : List Char) :
    joinChar sep (splitOnChar sep l) = l := by
  induction l with
  | nil => rfl
  | cons c cs ih =>
    by_cases h : c = sep
    · subst h
      rw [splitOnChar_cons_self]
      rcases hs : splitOnChar c cs with _ | ⟨p, ps⟩
      · exact absurd hs (splitOnChar_ne_nil c cs)
      · rw [hs] at ih
        simp only [joinChar, List.nil_append]
        rw [← hs] at ih ⊢
        rw [ih]
    · rcases hs : splitOnChar sep cs with _ | ⟨p, ps⟩
      · exact absurd hs (splitOnChar_ne_nil sep cs)
      · rw [splitOnChar_cons_hit sep c cs h p ps hs]
        rw [hs] at ih
        cases ps with
        | nil => simp only [joinChar] at ih ⊢; rw [ih]
        | cons q qs =>
          simp only [joinChar] at ih ⊢
          rw [List.cons_append, ih]

theorem joinChar_tail_splitOnChar (sep : Char) (l : List Char) (h : sep ∈ l) :
    joinChar sep (splitOnChar sep l).tail
      = (l.dropWhile (fun c => !(c = sep))).tail := by
  induction l with
  | nil => cases h
  | cons c cs ih =>
    by_cases hc : c = sep
    · subst hc
      rw [splitOnChar_cons_self]
      simp only [List.tail_cons]
      rw [joinChar_splitOnChar]
      simp [List.dropWhile_cons]
    · have hmem : sep ∈ cs := by
        rcases List.mem_cons.mp h with rfl | hm
        · exact absurd rfl hc
        · exact hm
      rcases hs : splitOnChar sep cs with _ | ⟨p, ps⟩
      · exact absurd hs (splitOnChar_ne_nil sep cs)
      · rw [splitOnChar_cons_hit sep c cs hc p ps hs]
        have hthis := ih hmem
        rw [hs] at hthis
        simp only [List.tail_cons] at hthis ⊢
        rw [List.dropWhile_cons]
        simpa [hc] using hthis

/-- The claim-side formula for a data line, phrased as the spec words it:
depth is the count of leading whitespace characters divided by the indent unit
of 2; the entry id is the (trimmed) text before the first colon of the trimmed
line; the description is all text past the first colon (trimmed), kept with
its internal colons, and appended after `": "` when nonempty. -/
def specFormatLine (line : String) : String :=
  let t := trimChars line.data
  let entryId := jsTrim (String.mk (t.takeWhile (fun c => !(c = ':'))))
  let entryDescription :=
    if ':' ∈ t then jsTrim (String.mk ((t.dropWhile (fun c => !(c = ':'))).tail))
    else ""
  repeatStr "  " ((line.data.takeWhile jsWS).length / 2) ++ "- " ++ entryId ++
    (if entryDescription ≠ "" then ": " ++ entryDescription else "")

theorem formatDataLine_eq_spec (line : String) :
    formatDataLine line = specFormatLine line := by
  simp only [formatDataLine, specFormatLine, leadingWSCount]
  by_cases hmem : ':' ∈ trimChars line.data
  · have h1 := splitOnChar_headD ':' (trimChars line.data)
    have h2 := joinChar_tail_splitOnChar ':' (trimChars line.data) hmem
    have h3 : (splitOnChar ':' (trimChars line.data)).length > 1 :=
      (one_lt_splitOnChar_length ':' (trimChars line.data)).mpr hmem
    rw [if_pos h3, if_pos hmem, h1, h2]
  · have h3 : ¬ (splitOnChar ':' (trimChars line.data)).length > 1 :=
      fun hc => hmem ((one_lt_splitOnChar_length ':' _).mp hc)
    rw [if_neg h3, if_neg hmem, splitOnChar_headD]

/-- The claim-side formula for one line of the formatter: comments and blank
lines pass through, data lines follow `specFormatLine`. -/
def specProcLine (line : String) : String :=
  if jsTrim line = "" || jsStartsWith line "#" then line else specFormatLine line

theorem procLine_eq_spec (line : String) : procLine line = specProcLine line := by
  simp only [procLine, specProcLine, formatDataLine_eq_spec]

/-- C7 (amended): whenever `processTaxonomy` succeeds, its formatted content is
the two-line header followed by the newline-join of the per-line images under
the claim-side formula — each data line becomes `"  "` repeated
`leadingWhitespace / 2` (integer division) times, then `"- "`, the entry id,
and `": "` plus the description rejoined past the first colon when that
description is nonempty after trimming (a trailing colon with empty
description emits no `": "`). -/
theorem processTaxonomy_data_lines (fs : FSys) (projectRoot taxonomyId : String)
    (pt : ProcessedTaxonomy)
    (h : (processTaxonomy fs projectRoot taxonomyId).1 = some pt) :
    ∃ tf, (findTaxonomyFile fs projectRoot taxonomyId).1 = some tf ∧
      pt.taxonomyId = taxonomyId ∧ pt.filepath = tf.path ∧
      pt.formattedContent
        = "# Taxonomy: " ++ taxonomyId ++ "\n\nFile: " ++ tf.path ++ "\n\n"
          ++ String.intercalate "\n"
              (((jsSplitChar '\n' tf.content).map specProcLine)
                ++ navigationLines taxonomyId) := by
  rcases hfp : findTaxonomyFile fs projectRoot taxonomyId with ⟨o, ops⟩
  unfold processTaxonomy at h
  rw [hfp] at h
  cases o with
  | none => exact absurd h (by simp)
  | some tf =>
    have h2 := Option.some.inj h
    subst h2
    have hfun : procLine = specProcLine := funext procLine_eq_spec
    refine ⟨tf, rfl, rfl, rfl, ?_⟩
    dsimp only
    rw [hfun]

set_option maxRecDepth 8000 in
/-- C7 counterexample: the data line `"garlic:"` contains a colon after the
entry id, yet the formatter emits `"- garlic"` with no `": "` continuation —
both at the single-line level and through the full `processTaxonomy` pipeline
(line index 4 is the image of the only content line of the file). -/
theorem processTaxonomy_colon_empty_desc_cex :
    formatDataLine "garlic:" = "- garlic" ∧
    ("- garlic" : String) ≠ "- garlic: " ∧
    ((processTaxonomy
          [("/project/taxonomies/herbs.txt", FSNode.file "garlic:" 7 "t")]
          "/project" "herbs").1.map
        (fun pt => (jsSplitChar '\n' pt.formattedContent)[4]?))
      = some (some "- garlic") :=
  ⟨by decide, by decide, by decide⟩

set_option maxRecDepth 8000 in
/-- Witness for the amended C7 theorem at a concrete one-line taxonomy file. -/
theorem processTaxonomy_data_lines_witness :
    ∃ tf, (findTaxonomyFile
        [("/project/taxonomies/herbs.txt", FSNode.file "ab:cd" 5 "t")]
        "/project" "herbs").1 = some tf ∧
      ("herbs" : String) = "herbs" ∧ ("taxonomies/herbs.txt" : String) = tf.path ∧
      ("# Taxonomy: herbs\n\nFile: taxonomies/herbs.txt\n\n- ab: cd\n\n## Navigation\n- Use openfoodfacts://taxonomy/\x7btaxonomy_id\x7d to view other taxonomies\n- View the raw taxonomy file at openfoodfacts://file/taxonomies/herbs.txt" : String)
        = "# Taxonomy: " ++ "herbs" ++ "\n\nFile: " ++ tf.path ++ "\n\n"
          ++ String.intercalate "\n"
              (((jsSplitChar '\n' tf.content).map specProcLine)
                ++ navigationLines "herbs") := by
  have h := processTaxonomy_data_lines
    [("/project/taxonomies/herbs.txt", FSNode.file "ab:cd" 5 "t")]
    "/project" "herbs"
    { formattedContent := "# Taxonomy: herbs\n\nFile: taxonomies/herbs.txt\n\n- ab: cd\n\n## Navigation\n- Use openfoodfacts://taxonomy/\x7btaxonomy_id\x7d to view other taxonomies\n- View the raw taxonomy file at openfoodfacts://file/taxonomies/herbs.txt"
      taxonomyId := "herbs"
      filepath := "taxonomies/herbs.txt" }
    (by decide)
  obtain ⟨tf, h1, _, h3, h4⟩ := h
  exact ⟨tf, h1, rfl, h3, h4⟩

/-! ## Claim C8: taxonomy soft-fail cascade -/

theorem processTaxonomy_none (fs : FSys) (projectRoot taxonomyId : String)
    (h : (findTaxonomyFile fs projectRoot taxonomyId).1 = none) :
    (processTaxonomy fs projectRoot taxonomyId).1 = none := by
  rcases hfp : findTaxonomyFile fs projectRoot taxonomyId with ⟨o, ops⟩
  rw [hfp] at h
  unfold processTaxonomy
  rw [hfp]
  cases o with
  | none => rfl
  | some tf => simp at h

/-- C8 counterexample: the id `toString` is reachable — the pathname
`//taxonomy/toString` (from `openfoodfacts:////taxonomy/toString`, whose
authority is empty) satisfies the taxonomy dispatch test and strips to
`toString` — the mock table lacks the id as an own key, yet the member read
hits `Object.prototype.toString` (truthy), so with no real file on disk
`handleTaxonomy` takes the non-error mock branch instead of returning the
claimed `isError` diagnostic envelope. -/
theorem handleTaxonomy_proto_member_cex :
    parseURL "openfoodfacts:////taxonomy/toString"
      = some { protocol := "openfoodfacts:", host := "",
               pathname := "//taxonomy/toString" } ∧
    jsStartsWith "//taxonomy/toString" "//taxonomy/" = true ∧
    stripTaxonomyRoute "//taxonomy/toString" = "toString" ∧
    List.lookup "toString" mockTaxonomies = none ∧
    handleTaxonomy [] "/project" "/cwd" "openfoodfacts:////taxonomy/toString"
        { protocol := "openfoodfacts:", host := "",
          pathname := "//taxonomy/toString" }
      = (mockTaxonomyEnvelope "openfoodfacts:////taxonomy/toString" "toString"
           (protoMemberString "toString"),
         [TaxStage.realFile, TaxStage.mockLookup]) ∧
    (mockTaxonomyEnvelope "openfoodfacts:////taxonomy/toString" "toString"
        (protoMemberString "toString")).contents.map (fun c => c.isError)
      = [none] :=
  ⟨by decide, by decide, by decide, by decide, by decide, by decide⟩

/-- C8 (amended): when the locator finds no real file, `handleTaxonomy`
branches on the truthiness of the JavaScript member read
`mockTaxonomies[taxonomyId]`: a truthy read — an own key of the mock table,
or an inherited `Object.prototype` member such as `toString` — yields the
non-error mock envelope flagged `isMock: true`, and only a falsy read (the id
neither an own key nor an inherited member name) yields the `isError`
diagnostic envelope listing the taxonomies available on disk.  The stage log
records the cascade as exactly real file, then member read, then diagnostic,
each consulted once, in that order. -/
theorem handleTaxonomy_fallback_cascade (fs : FSys)
    (projectRoot cwd uri : String) (url : URLRec) (taxonomyId : String)
    (hid : stripTaxonomyRoute url.pathname = taxonomyId)
    (hne : taxonomyId ≠ "")
    (hreal : (findTaxonomyFile fs projectRoot taxonomyId).1 = none) :
    (∀ mock, mockTaxonomiesAt taxonomyId = some mock →
      handleTaxonomy fs projectRoot cwd uri url
        = (mockTaxonomyEnvelope uri taxonomyId mock,
           [TaxStage.realFile, TaxStage.mockLookup])) ∧
    (mockTaxonomiesAt taxonomyId = none →
      handleTaxonomy fs projectRoot cwd uri url
        = (errorEnvelope uri (taxonomyNotFoundText fs projectRoot cwd taxonomyId),
           [TaxStage.realFile, TaxStage.mockLookup, TaxStage.diagnostic])) ∧
    (∀ mock, List.lookup taxonomyId mockTaxonomies = some mock →
      mockTaxonomiesAt taxonomyId = some mock) ∧
    (List.lookup taxonomyId mockTaxonomies = none →
      taxonomyId ∉ objectProtoKeys → mockTaxonomiesAt taxonomyId = none) ∧
    (∀ mock, (mockTaxonomyEnvelope uri taxonomyId mock).contents.map
        (fun c => (c.isError, c.metadata.map (fun m => m.isMock)))
      = [(none, some (some true))]) := by
  have hpt : (processTaxonomy fs projectRoot taxonomyId).1 = none :=
    processTaxonomy_none fs projectRoot taxonomyId hreal
  rcases hp : processTaxonomy fs projectRoot taxonomyId with ⟨o, ops⟩
  rw [hp] at hpt
  cases o with
  | some pt => simp at hpt
  | none =>
    refine ⟨?_, ?_, ?_, ?_, ?_⟩
    · intro mock hmock
      unfold handleTaxonomy
      rw [hid, if_neg hne, hp, hmock]
    · intro hmock
      unfold handleTaxonomy
      rw [hid, if_neg hne, hp, hmock]
    · intro mock hm
      simp [mockTaxonomiesAt, hm]
    · intro hm1 hm2
      simp [mockTaxonomiesAt, hm1, hm2]
    · intro mock
      rfl

/-- Witness for the amended C8 theorem: with an empty filesystem the own key
`categories` yields the mock envelope, and the id `nope` (neither an own key
nor an inherited member) yields the diagnostic error envelope. -/
theorem handleTaxonomy_fallback_cascade_witness :
    handleTaxonomy [] "/project" "/cwd" "openfoodfacts://taxonomy/categories"
        { protocol := "openfoodfacts:", host := "", pathname := "//taxonomy/categories" }
      = (mockTaxonomyEnvelope "openfoodfacts://taxonomy/categories" "categories"
           mockCategoriesText,
         [TaxStage.realFile, TaxStage.mockLookup]) ∧
    handleTaxonomy [] "/project" "/cwd" "openfoodfacts://taxonomy/nope"
        { protocol := "openfoodfacts:", host := "", pathname := "//taxonomy/nope" }
      = (errorEnvelope "openfoodfacts://taxonomy/nope"
           (taxonomyNotFoundText [] "/project" "/cwd" "nope"),
         [TaxStage.realFile, TaxStage.mockLookup, TaxStage.diagnostic]) := by
  constructor
  · exact (handleTaxonomy_fallback_cascade [] "/project" "/cwd"
      "openfoodfacts://taxonomy/categories"
      { protocol := "openfoodfacts:", host := "", pathname := "//taxonomy/categories" }
      "categories" (by decide) (by decide) (by decide)).1 mockCategoriesText rfl
  · exact (handleTaxonomy_fallback_cascade [] "/project" "/cwd"
      "openfoodfacts://taxonomy/nope"
      { protocol := "openfoodfacts:", host := "", pathname := "//taxonomy/nope" }
      "nope" (by decide) (by decide) (by decide)).2.1 (by decide)

/-! ## Claim C3: the file route path is not percent-decoded -/

theorem takeWhile_all (f : Char → Bool) (l : List Char) (h : ∀ c ∈ l, f c = true) :
    l.takeWhile f = l := by
  induction l with
  | nil => rfl
  | cons c cs ih =>
    rw [List.takeWhile_cons, if_pos (by simpa using h c (by simp)),
      ih (fun x hx => h x (by simp [hx]))]

/-- WHATWG parse of `openfoodfacts://file/<p>` for `p` free of `?` and `#`:
the segment `file` becomes the URL host and the serialized pathname is
`"/" ++ p`, percent-escapes untouched. -/
theorem parseURL_file_route (p : String)
    (hq : ∀ c ∈ p.data, (!(c = '?' || c = '#')) = true) :
    parseURL ("openfoodfacts://file/" ++ p)
      = some { protocol := "openfoodfacts:", host := "file",
               pathname := String.mk ('/' :: p.data) } := by
  have hdata : ("openfoodfacts://file/" ++ p).data
      = 'o' :: 'p' :: 'e' :: 'n' :: 'f' :: 'o' :: 'o' :: 'd' :: 'f' :: 'a' :: 'c' :: 't' :: 's' :: ':' :: '/' :: '/' :: 'f' :: 'i' :: 'l' :: 'e' :: '/' :: p.data := by
    rw [String.data_append]
    rfl
  have hq2 : ∀ c ∈ p.data, (!decide (c = '?') && !decide (c = '#')) = true := by
    intro c hc
    have := hq c hc
    simpa using this
  simp only [parseURL, hdata]
  simp [List.takeWhile_cons, isSchemeChar]
  rw [takeWhile_all _ _ hq2]

/-- C3 (amended): the file-content provider uses `url.pathname` with one
leading `//file/` stripped, with NO percent-decoding; and since the WHATWG
parser assigns the `file` segment of `openfoodfacts://file/<p>` to the URL
host, the filepath it passes to the accessor is `"/" ++ p` itself,
percent-escapes preserved (never the decoding of `p`). -/
theorem fileContent_path_not_decoded (p : String)
    (hq : ∀ c ∈ p.data, (!(c = '?' || c = '#')) = true)
    (hns : jsStartsWith (String.mk ('/' :: p.data)) "//file/" = false) :
    (parseURL ("openfoodfacts://file/" ++ p)).map (fun u => stripFileRoute u.pathname)
      = some ("/" ++ p) ∧
    String.mk ('/' :: p.data) = "/" ++ p := by
  have hmk : String.mk ('/' :: p.data) = "/" ++ p := by
    cases p with
    | mk d => rfl
  have hstrip : stripFileRoute (String.mk ('/' :: p.data)) = String.mk ('/' :: p.data) := by
    simp [stripFileRoute, hns]
  refine ⟨?_, hmk⟩
  rw [parseURL_file_route p hq]
  show some (stripFileRoute (String.mk ('/' :: p.data))) = some ("/" ++ p)
  rw [hstrip, hmk]

/-- Witness for the amended C3 theorem at `p = "a%20b"`. -/
theorem fileContent_path_not_decoded_witness :
    (parseURL ("openfoodfacts://file/" ++ "a%20b")).map
        (fun u => stripFileRoute u.pathname)
      = some ("/" ++ "a%20b") :=
  (fileContent_path_not_decoded "a%20b" (by decide) (by decide)).1

/-- C3 counterexample: for `openfoodfacts://file/a%20b` the filepath the
provider computes is `"/a%20b"`, while the percent-decoding of `a%20b` is
`"a b"` — the two differ, so the relative path used is not the URL-decoding
of the path-after-route (and is not even `a%20b`). -/
theorem fileContent_decode_cex :
    (parseURL "openfoodfacts://file/a%20b").map (fun u => stripFileRoute u.pathname)
      = some "/a%20b" ∧
    String.mk (percentDecode "a%20b".data) = "a b" ∧
    ("/a%20b" : String) ≠ "a b" ∧ ("/a%20b" : String) ≠ "a%20b" :=
  ⟨by decide, by decide, by decide, by decide⟩

/-! ## Claims C1 and C10: router totality and the empty-roots `file:` branch -/

/-- A minimal concrete server context for closed instances. -/
def ctx0 : ServerCtx :=
  { fs := [], projectRoot := "/project", cwd := "/project/mcp-server",
    statics := { schema := "", apiDocs := "", codePatterns := "",
                 fileOrganization := "", categoriesTaxonomy := "" },
    templates := [] }

/-- C1 (amended): for every uri the URL parser accepts, `routeResourceRequest`
resolves to an envelope — every dispatch-time throw (provider errors, the
NotFound case, the static-resource throw) is converted by the catch of the router —
but a uri the parser rejects makes the `new URL` exception escape the router
(`.error`, a rejected promise at runtime), producing no envelope. -/
theorem routeResourceRequest_total_on_parseable (roots : List Root)
    (ctx : ServerCtx) (uri : String) :
    (routeResourceRequest roots ctx uri).toOption.isSome = (parseURL uri).isSome ∧
    (parseURL uri = none →
      routeResourceRequest roots ctx uri = .error "Invalid URL") := by
  constructor
  · cases hp : parseURL uri with
    | none => simp [routeResourceRequest, hp, Except.toOption]
    | some url =>
      simp only [routeResourceRequest, hp]
      cases hacc : isResourceAccessible roots uri with
      | false => simp [hacc, Except.toOption]
      | true =>
        rcases hd : routeDispatch roots ctx uri url with e | env <;>
          simp [hacc, hd, Except.toOption]
  · intro hp
    simp [routeResourceRequest, hp]

/-- Witness for the amended C1 theorem: an unparseable uri makes the exception
escape, a parseable one resolves to an envelope. -/
theorem routeResourceRequest_total_on_parseable_witness :
    (routeResourceRequest [] ctx0 "not-a-url" = .error "Invalid URL") ∧
    (routeResourceRequest [] ctx0 "openfoodfacts://schema").toOption.isSome
      = (parseURL "openfoodfacts://schema").isSome :=
  ⟨(routeResourceRequest_total_on_parseable [] ctx0 "not-a-url").2 (by decide),
   (routeResourceRequest_total_on_parseable [] ctx0 "openfoodfacts://schema").1⟩

/-- C1 counterexample: on the input `"not-a-url"` (rejected by the URL parser)
the router does not return an envelope at all — the exception escapes — so it
is not total and produces no error envelope citing the raw string. -/
theorem routeResourceRequest_invalid_uri_throws :
    routeResourceRequest [] ctx0 "not-a-url" = .error "Invalid URL" ∧
    (routeResourceRequest [] ctx0 "not-a-url").toOption = none := by
  have h : parseURL "not-a-url" = none := by decide
  constructor <;> simp [routeResourceRequest, h, Except.toOption]

/-- C10: with an empty root list, any `file:`-scheme URI passes the access
check (empty list is allow-all) but `getRootForURI` returns `none`, so the
thrown `File is not within any defined root` is caught and converted:
the stub success is never produced under an empty root configuration. -/
theorem route_file_uri_empty_roots (ctx : ServerCtx) (uri : String) (url : URLRec)
    (hp : parseURL uri = some url) (hf : url.protocol = "file:") :
    routeResourceRequest [] ctx uri
      = .ok (errorEnvelope uri
          "Error processing request: File is not within any defined root") := by
  have hacc : isResourceAccessible [] uri = true := by
    simp [isResourceAccessible, isWithinRoots]
  have key : ∀ (v : String) (u' : URLRec), parseURL v = some u' →
      u'.protocol = "openfoodfacts:" → uri ≠ v := by
    intro v u' hv hproto hE
    subst hE
    rw [hv] at hp
    injection hp with h
    subst h
    rw [hproto] at hf
    exact absurd hf (by decide)
  have h1 : uri ≠ "openfoodfacts://info" :=
    key _ { protocol := "openfoodfacts:", host := "info", pathname := "" }
      (by decide) rfl
  have h2 : uri ≠ "openfoodfacts://schema" :=
    key _ { protocol := "openfoodfacts:", host := "schema", pathname := "" }
      (by decide) rfl
  have h3 : uri ≠ "openfoodfacts://api-docs" :=
    key _ { protocol := "openfoodfacts:", host := "api-docs", pathname := "" }
      (by decide) rfl
  have h4 : uri ≠ "openfoodfacts://code-patterns" :=
    key _ { protocol := "openfoodfacts:", host := "code-patterns", pathname := "" }
      (by decide) rfl
  have h5 : uri ≠ "openfoodfacts://file-organization" :=
    key _ { protocol := "openfoodfacts:", host := "file-organization", pathname := "" }
      (by decide) rfl
  have hroot : getRootForURI [] uri = none := rfl
  simp only [routeResourceRequest, hp, hacc, Bool.not_true, Bool.false_eq_true,
    if_false]
  simp [routeDispatch, hf, staticResourceURIs, h1, h2, h3, h4, h5, hroot]

/-- Witness for C10 at `file:///etc/hosts`. -/
theorem route_file_uri_empty_roots_witness :
    routeResourceRequest [] ctx0 "file:///etc/hosts"
      = .ok (errorEnvelope "file:///etc/hosts"
          "Error processing request: File is not within any defined root") :=
  route_file_uri_empty_roots ctx0 "file:///etc/hosts"
    { protocol := "file:", host := "", pathname := "/etc/hosts" }
    (by decide) rfl

end OffMcp
